import Mathlib

/-!
Verification of the core logic of the daily-diet-scan repository.

Two subsystems are embedded from the TypeScript source:

* the label extractor, from
  src/components/food/FoodScanner.tsx (extractNutritionFromText),
  modelled as pure functions over lists of characters; the JavaScript
  regular expressions used there are embedded as explicit pattern values
  and a specialised matcher (scan positions left to right, alternatives
  in order, greedy forced quantifiers — the only behaviours those
  particular patterns can exercise);

* the daily ledger, from src/components/food/FoodForm.tsx
  (handleSubmit) and src/components/dashboard/DailyDashboard.tsx
  (deleteFoodEntry), modelled as explicit state passing over a single
  (user, date) domain, with store responses taken as parameters where a
  claim concerns error handling.

Finite numeric values are modelled as exact rationals. The IEEE-double
overflow of parseFloat matters to one claim, so the extraction loop
also exists in a double-aware form (JsVal below) in which an exact
parsed magnitude reaching 2^1024 - 2^970 becomes Infinity; rounding of
finite results to the nearest double is not modelled (no claim depends
on it).
-/

/-- Whitespace as matched by the JavaScript regex class backslash-s,
restricted to the ASCII whitespace characters (the Unicode space
characters play no role in any claim). -/
def isJsWs (c : Char) : Bool :=
  c = ' ' || c = '\t' || c = '\n' || c = '\r' || c = '\x0b' || c = '\x0c'

/-- Word characters as matched by the JavaScript regex class backslash-w:
ASCII letters, ASCII digits, and the underscore. -/
def isWordChar (c : Char) : Bool :=
  c.isAlpha || c.isDigit || c = '_'

/-- The punctuation characters kept by the cleaning step of
extractNutritionFromText (FoodScanner.tsx line 24). -/
def isKeptPunct (c : Char) : Bool :=
  c = '.' || c = '-' || c = ':' || c = '/' || c = '%'

/-- One character step of the first replace of FoodScanner.tsx line 24:
a character matching [^\w\s.\-:/%] is replaced by a single space. -/
def keepOrSpace (c : Char) : Char :=
  if isWordChar c || isJsWs c || isKeptPunct c then c else ' '

/-- The second replace of FoodScanner.tsx line 24: every maximal run of
whitespace characters is replaced by one space. -/
def collapseWs : List Char → List Char
  | [] => []
  | [c] => if isJsWs c then [' '] else [c]
  | c :: c' :: cs =>
    if isJsWs c then
      if isJsWs c' then collapseWs (c' :: cs)
      else ' ' :: collapseWs (c' :: cs)
    else c :: collapseWs (c' :: cs)

/-- The cleaned text of FoodScanner.tsx line 24, as a character list:
replace every character outside [\w\s.\-:/%] by a space, collapse
whitespace runs to one space, lower-case. Lower-casing is ASCII
(Char.toLower), which agrees with the source on every character a claim
exercises. -/
def cleanTextList (s : String) : List Char :=
  (collapseWs (s.data.map keepOrSpace)).map Char.toLower

/-- The cleaned text as a string (the local cleanText of
extractNutritionFromText). -/
def cleanText (s : String) : String :=
  String.mk (cleanTextList s)

/-- Value of a list of ASCII digits read in base ten. -/
def digitsToNat (ds : List Char) : Nat :=
  ds.foldl (fun acc c => 10 * acc + (c.toNat - '0'.toNat)) 0

/-- JavaScript parseFloat on a character list, modelled over exact
rationals: skip leading whitespace, optional sign, integer digits,
optional fraction, optional exponent; NaN is modelled as none. The
result is the exact decimal value; overflow to Infinity is applied
downstream by toDoubleVal, and the Infinity keyword is not modelled
(no claim exercises it). -/
def jsParseFloatList (s : List Char) : Option ℚ :=
  let s1 := s.dropWhile isJsWs
  let signAndRest : ℚ × List Char :=
    match s1 with
    | '-' :: r => (-1, r)
    | '+' :: r => (1, r)
    | _ => (1, s1)
  let sign := signAndRest.1
  let s2 := signAndRest.2
  let intPart := s2.span Char.isDigit
  let fracPart : List Char × List Char :=
    match intPart.2 with
    | '.' :: r => r.span Char.isDigit
    | _ => ([], intPart.2)
  if intPart.1.isEmpty && fracPart.1.isEmpty then none
  else
    let base : ℚ :=
      (digitsToNat intPart.1 : ℚ) +
        (digitsToNat fracPart.1 : ℚ) / (10 : ℚ) ^ fracPart.1.length
    let expFactor : ℚ :=
      match fracPart.2 with
      | 'e' :: r =>
        match r with
        | '-' :: r2 =>
          let eds := r2.span Char.isDigit
          if eds.1.isEmpty then 1 else (10 : ℚ) ^ (-(digitsToNat eds.1 : ℤ))
        | '+' :: r2 =>
          let eds := r2.span Char.isDigit
          if eds.1.isEmpty then 1 else (10 : ℚ) ^ (digitsToNat eds.1 : ℤ)
        | _ =>
          let eds := r.span Char.isDigit
          if eds.1.isEmpty then 1 else (10 : ℚ) ^ (digitsToNat eds.1 : ℤ)
      | 'E' :: r =>
        match r with
        | '-' :: r2 =>
          let eds := r2.span Char.isDigit
          if eds.1.isEmpty then 1 else (10 : ℚ) ^ (-(digitsToNat eds.1 : ℤ))
        | '+' :: r2 =>
          let eds := r2.span Char.isDigit
          if eds.1.isEmpty then 1 else (10 : ℚ) ^ (digitsToNat eds.1 : ℤ)
        | _ =>
          let eds := r.span Char.isDigit
          if eds.1.isEmpty then 1 else (10 : ℚ) ^ (digitsToNat eds.1 : ℤ)
      | _ => 1
    some (sign * base * expFactor)

/-- JavaScript parseFloat on a string. -/
def jsParseFloat (s : String) : Option ℚ :=
  jsParseFloatList s.data

theorem sanity_parse_half : jsParseFloat ".5" = some (1/2) := by with_unfolding_all decide

theorem sanity_parse_neg : jsParseFloat " -2" = some (-2) := by with_unfolding_all decide

theorem sanity_parse_nan : jsParseFloat "abc" = none := by decide

theorem sanity_clean : cleanText "Total   Fat, 5g!" = "total fat 5g " := by decide

/-- Token of an embedded regex phrase: a literal character sequence, a
whitespace gap (backslash-s star), or a nonempty digit run
(backslash-d plus). Covers every construct occurring inside the phrase
alternatives of the patterns of FoodScanner.tsx lines 29-45. -/
inductive Tok where
  | lit : List Char → Tok
  | gap : Tok
  | num : Tok
deriving DecidableEq

/-- Consume a literal character sequence from the front of the text. -/
def stripLit : List Char → List Char → Option (List Char)
  | [], s => some s
  | _ :: _, [] => none
  | c :: cs, d :: ds => if c = d then stripLit cs ds else none

/-- Match a token sequence at the front of the text, returning the rest
of the text on success. The gap and num tokens are matched greedily;
for the patterns embedded here this is exact, since in each of them a
gap or num token is followed by a character that the token itself can
never match, so the regex engine never backtracks into it
successfully. -/
def matchToks : List Tok → List Char → Option (List Char)
  | [], s => some s
  | Tok.lit l :: ts, s =>
    match stripLit l s with
    | some s' => matchToks ts s'
    | none => none
  | Tok.gap :: ts, s => matchToks ts (s.dropWhile isJsWs)
  | Tok.num :: ts, s =>
    let p := s.span Char.isDigit
    if p.1.isEmpty then none else matchToks ts p.2

/-- Match the capture group (backslash-d plus, optional fraction) at the
front of the text, returning the captured characters and the rest.
Greedy without backtracking, which is exact for the embedded patterns:
a shortened capture leaves a digit or a dot in front, and every
follow-up the patterns use (end, or whitespace then a unit letter)
rejects both. -/
def matchNumber (s : List Char) : Option (List Char × List Char) :=
  let p := s.span Char.isDigit
  if p.1.isEmpty then none
  else
    match p.2 with
    | '.' :: r =>
      let q := r.span Char.isDigit
      if q.1.isEmpty then some (p.1, p.2)
      else some (p.1 ++ '.' :: q.1, q.2)
    | _ => some (p.1, p.2)

/-- A pattern of FoodScanner.tsx lines 30-44: ordered phrase
alternatives, then the [\s:]* separator and the number capture (shared
by all fifteen patterns), then ordered unit-suffix alternatives. -/
structure Pat where
  alts : List (List Tok)
  unitAlts : List (List Tok)
deriving DecidableEq

/-- Try the unit-suffix alternatives after the captured number; only
success or failure matters to the capture, so order is irrelevant
here. -/
def matchUnit (unitAlts : List (List Tok)) (s : List Char) : Bool :=
  unitAlts.any (fun alt => (matchToks alt s).isSome)

/-- Attempt one phrase alternative at the current position: phrase, then
the [\s:]* separator, then the captured number, then the unit suffix.
Returns the capture on success. -/
def matchAlt (alt : List Tok) (unitAlts : List (List Tok)) (s : List Char) : Option (List Char) :=
  match matchToks alt s with
  | none => none
  | some s1 =>
    let s2 := s1.dropWhile (fun c => isJsWs c || c = ':')
    match matchNumber s2 with
    | none => none
    | some (cap, s3) => if matchUnit unitAlts s3 then some cap else none

/-- Attempt each phrase alternative, in pattern order, at the current
position. -/
def tryAlts (alts : List (List Tok)) (unitAlts : List (List Tok)) (s : List Char) : Option (List Char) :=
  match alts with
  | [] => none
  | a :: rest =>
    match matchAlt a unitAlts s with
    | some cap => some cap
    | none => tryAlts rest unitAlts s

/-- Leftmost match of a pattern, as the JavaScript String.match of a
non-global regex: positions are tried left to right, and at each
position the alternatives in order; the first success wins. Returns
the first capture group. -/
def runPat (p : Pat) : List Char → Option (List Char)
  | [] => tryAlts p.alts p.unitAlts []
  | c :: rest =>
    match tryAlts p.alts p.unitAlts (c :: rest) with
    | some cap => some cap
    | none => runPat p rest

/-- The unit suffix \s*g. -/
def unitG : List (List Tok) := [[Tok.gap, Tok.lit ['g']]]

/-- The unit suffix \s*mg. -/
def unitMg : List (List Tok) := [[Tok.gap, Tok.lit ['m', 'g']]]

/-- The empty unit suffix (the calories pattern captures a bare
number). -/
def unitNone : List (List Tok) := [[]]

/-- Pattern for calories (FoodScanner.tsx line 30):
(?:calories|energy|kcal)[\s:]*(\d+(?:\.\d+)?). -/
def caloriesPat : Pat :=
  ⟨[[Tok.lit "calories".data], [Tok.lit "energy".data], [Tok.lit "kcal".data]], unitNone⟩

/-- Pattern for protein (line 31): protein[\s:]*(\d+(?:\.\d+)?)\s*g. -/
def proteinPat : Pat :=
  ⟨[[Tok.lit "protein".data]], unitG⟩

/-- Pattern for carbs (line 32):
(?:total\s*carbohydrate|carbohydrate|carbs)[\s:]*(\d+(?:\.\d+)?)\s*g. -/
def carbsPat : Pat :=
  ⟨[[Tok.lit "total".data, Tok.gap, Tok.lit "carbohydrate".data],
    [Tok.lit "carbohydrate".data],
    [Tok.lit "carbs".data]], unitG⟩

/-- Pattern for fat (line 33):
(?:total\s*fat|total fat|fat)[\s:]*(\d+(?:\.\d+)?)\s*g. -/
def fatPat : Pat :=
  ⟨[[Tok.lit "total".data, Tok.gap, Tok.lit "fat".data],
    [Tok.lit "total fat".data],
    [Tok.lit "fat".data]], unitG⟩

/-- Pattern for saturated fat (line 34):
(?:saturated\s*fat|sat\s*fat)[\s:]*(\d+(?:\.\d+)?)\s*g. -/
def saturatedFatPat : Pat :=
  ⟨[[Tok.lit "saturated".data, Tok.gap, Tok.lit "fat".data],
    [Tok.lit "sat".data, Tok.gap, Tok.lit "fat".data]], unitG⟩

/-- Pattern for trans fat (line 35):
(?:trans\s*fat|trans fat)[\s:]*(\d+(?:\.\d+)?)\s*g. -/
def transFatPat : Pat :=
  ⟨[[Tok.lit "trans".data, Tok.gap, Tok.lit "fat".data],
    [Tok.lit "trans fat".data]], unitG⟩

/-- Pattern for cholesterol (line 36):
cholesterol[\s:]*(\d+(?:\.\d+)?)\s*mg. -/
def cholesterolPat : Pat :=
  ⟨[[Tok.lit "cholesterol".data]], unitMg⟩

/-- Pattern for sodium (line 37): sodium[\s:]*(\d+(?:\.\d+)?)\s*mg. -/
def sodiumPat : Pat :=
  ⟨[[Tok.lit "sodium".data]], unitMg⟩

/-- Pattern for fiber (line 38):
(?:dietary\s*fiber|fiber)[\s:]*(\d+(?:\.\d+)?)\s*g. -/
def fiberPat : Pat :=
  ⟨[[Tok.lit "dietary".data, Tok.gap, Tok.lit "fiber".data],
    [Tok.lit "fiber".data]], unitG⟩

/-- Pattern for sugar (line 39):
(?:total\s*sugars|sugars)[\s:]*(\d+(?:\.\d+)?)\s*g. -/
def sugarPat : Pat :=
  ⟨[[Tok.lit "total".data, Tok.gap, Tok.lit "sugars".data],
    [Tok.lit "sugars".data]], unitG⟩

/-- Pattern for added sugar (line 40):
(?:added\s*sugars|includes\s*\d+g\s*added\s*sugars)[\s:]*(\d+(?:\.\d+)?)\s*g. -/
def addedSugarPat : Pat :=
  ⟨[[Tok.lit "added".data, Tok.gap, Tok.lit "sugars".data],
    [Tok.lit "includes".data, Tok.gap, Tok.num, Tok.lit ['g'], Tok.gap,
     Tok.lit "added".data, Tok.gap, Tok.lit "sugars".data]], unitG⟩

/-- Pattern for vitamin D (line 41):
(?:vitamin\s*d|vit\s*d)[\s:]*(\d+(?:\.\d+)?)\s*(?:mcg|Âµg); the second
unit alternative is the two characters 0xC2 0xB5 of the source followed
by g, compared after ASCII lower-casing. -/
def vitaminDPat : Pat :=
  ⟨[[Tok.lit "vitamin".data, Tok.gap, Tok.lit ['d']],
    [Tok.lit "vit".data, Tok.gap, Tok.lit ['d']]],
   [[Tok.gap, Tok.lit "mcg".data], [Tok.gap, Tok.lit ['Â', 'µ', 'g']]]⟩

/-- Pattern for calcium (line 42): calcium[\s:]*(\d+(?:\.\d+)?)\s*mg. -/
def calciumPat : Pat :=
  ⟨[[Tok.lit "calcium".data]], unitMg⟩

/-- Pattern for iron (line 43): iron[\s:]*(\d+(?:\.\d+)?)\s*mg. -/
def ironPat : Pat :=
  ⟨[[Tok.lit "iron".data]], unitMg⟩

/-- Pattern for potassium (line 44):
potassium[\s:]*(\d+(?:\.\d+)?)\s*mg. -/
def potassiumPat : Pat :=
  ⟨[[Tok.lit "potassium".data]], unitMg⟩

/-- The body of the extraction loop of FoodScanner.tsx lines 48-56 for
one nutrient: run the pattern on the cleaned text; on a match, parse
the capture with parseFloat and keep it only if it is a non-negative
number, otherwise leave the field unassigned. -/
def fieldValue (p : Pat) (t : List Char) : Option ℚ :=
  match runPat p t with
  | none => none
  | some cap =>
    match jsParseFloatList cap with
    | none => none
    | some v => if 0 ≤ v then some v else none

/-- The NutritionData record of src/types/nutrition.ts: the four
required fields are numbers, the others are optional. -/
structure NutritionData where
  calories : ℚ
  protein : ℚ
  carbs : ℚ
  fat : ℚ
  saturatedFat : Option ℚ
  transFat : Option ℚ
  cholesterol : Option ℚ
  sodium : Option ℚ
  fiber : Option ℚ
  sugar : Option ℚ
  addedSugar : Option ℚ
  vitaminD : Option ℚ
  calcium : Option ℚ
  iron : Option ℚ
  potassium : Option ℚ
deriving DecidableEq

/-- extractNutritionFromText of FoodScanner.tsx lines 22-59: clean the
text, initialise the four required fields to zero, then run every
pattern; a successful non-negative capture assigns the field, anything
else leaves it at its initial state (zero for the required fields,
absent for the optional ones). -/
def extractNutritionFromText (s : String) : NutritionData :=
  let t := cleanTextList s
  { calories := (fieldValue caloriesPat t).getD 0
    protein := (fieldValue proteinPat t).getD 0
    carbs := (fieldValue carbsPat t).getD 0
    fat := (fieldValue fatPat t).getD 0
    saturatedFat := fieldValue saturatedFatPat t
    transFat := fieldValue transFatPat t
    cholesterol := fieldValue cholesterolPat t
    sodium := fieldValue sodiumPat t
    fiber := fieldValue fiberPat t
    sugar := fieldValue sugarPat t
    addedSugar := fieldValue addedSugarPat t
    vitaminD := fieldValue vitaminDPat t
    calcium := fieldValue calciumPat t
    iron := fieldValue ironPat t
    potassium := fieldValue potassiumPat t }

theorem sanity_extract_basic :
    (extractNutritionFromText "Calories 250 Protein 12g Total Carbohydrate 30g Total Fat 5g").calories = 250 ∧
    (extractNutritionFromText "Calories 250 Protein 12g Total Carbohydrate 30g Total Fat 5g").protein = 12 ∧
    (extractNutritionFromText "Calories 250 Protein 12g Total Carbohydrate 30g Total Fat 5g").carbs = 30 ∧
    (extractNutritionFromText "Calories 250 Protein 12g Total Carbohydrate 30g Total Fat 5g").fat = 5 := by
  with_unfolding_all decide

theorem sanity_extract_unitless :
    (extractNutritionFromText "Protein 12").protein = 0 ∧
    (extractNutritionFromText "Sodium 5").sodium = none := by
  with_unfolding_all decide

/-- A daily_logs row for the fixed (user, date) under consideration:
the four running totals (DailyDashboard.tsx lines 22-27, and the
daily_logs table columns). -/
structure DailyLog where
  total_calories : ℚ
  total_protein : ℚ
  total_carbs : ℚ
  total_fat : ℚ
deriving DecidableEq

/-- The zero log created by the find-or-create of FoodForm.tsx lines
65-76. -/
def zeroLog : DailyLog := ⟨0, 0, 0, 0⟩

/-- A food_entries row for the fixed (user, date): identity, name,
brand, quantity, and the four stored scaled values (DailyDashboard.tsx
lines 11-20). Row identity is modelled as a sequentially assigned
natural number. -/
structure FoodEntry where
  id : Nat
  food_name : String
  food_brand : Option String
  quantity : ℚ
  calories : ℚ
  protein : ℚ
  carbs : ℚ
  fat : ℚ
deriving DecidableEq

/-- The backing store restricted to one (user, date): the optional
daily_logs row, the food_entries rows, and the next fresh row
identity. Under sequential execution the dashboard state mirrors this
(loadTodayData reloads it after every operation), so UI lookups are
lookups in this state. -/
structure LedgerState where
  dailyLog : Option DailyLog
  entries : List FoodEntry
  nextId : Nat
deriving DecidableEq

/-- The store before any write of the day. -/
def initialState : LedgerState := ⟨none, [], 0⟩

/-- A store error carrying the PostgREST error code, as inspected by
FoodForm.tsx line 63. -/
structure StoreErr where
  code : String
deriving DecidableEq

/-- The find-or-create of FoodForm.tsx lines 56-82, with the two store
responses as parameters: selectRes is the outcome of the initial
single-row select, createRes the outcome the insert of a zero log
would have (consulted only when the select reports no rows,
PGRST116). An ok is the row proceeded with; an error is thrown,
aborting handleSubmit. Note that any create error, including the
record-already-exists unique violation, is thrown (line 78). -/
def findOrCreateDailyLog (selectRes : Except StoreErr DailyLog)
    (createRes : Except StoreErr DailyLog) : Except StoreErr DailyLog :=
  match selectRes with
  | Except.ok l => Except.ok l
  | Except.error e =>
    if e.code = "PGRST116" then createRes else Except.error e

namespace FoodForm

/-- The four-field NutritionData interface local to FoodForm.tsx lines
9-14 (the per-serving values held by the form). -/
structure NutritionData where
  calories : ℚ
  protein : ℚ
  carbs : ℚ
  fat : ℚ
deriving DecidableEq

/-- handleSubmit of FoodForm.tsx lines 31-155, under sequential
execution with a signed-in session and no store failure: scale the
per-serving values by the quantity (lines 47-52), find or create the
daily log (lines 54-82; sequentially the select succeeds exactly when
the row exists and the create attempt succeeds), insert the entry row
(lines 85-97), and write the updated totals, computed from the
previously read log row plus the scaled values (lines 102-110). The
foods-catalog upsert of lines 114-129 touches a separate table and is

not modelled. No input validation is performed anywhere on this
path. -/
def handleSubmit (st : LedgerState) (foodName : String) (brand : String)
    (quantity : ℚ) (nutrition : NutritionData) : LedgerState :=
  let adjusted : NutritionData :=
    ⟨nutrition.calories * quantity, nutrition.protein * quantity,
     nutrition.carbs * quantity, nutrition.fat * quantity⟩
  let selectRes : Except StoreErr DailyLog :=
    match st.dailyLog with
    | some l => Except.ok l
    | none => Except.error ⟨"PGRST116"⟩
  match findOrCreateDailyLog selectRes (Except.ok zeroLog) with
  | Except.error _ => st
  | Except.ok log =>
    let entry : FoodEntry :=
      ⟨st.nextId, foodName, if brand = "" then none else some brand, quantity,
       adjusted.calories, adjusted.protein, adjusted.carbs, adjusted.fat⟩
    { dailyLog := some ⟨log.total_calories + adjusted.calories,
                        log.total_protein + adjusted.protein,
                        log.total_carbs + adjusted.carbs,
                        log.total_fat + adjusted.fat⟩
      entries := entry :: st.entries
      nextId := st.nextId + 1 }

/-- The disabled condition of the submit button, FoodForm.tsx line 242:
isSubmitting || !foodName.trim(). -/
def submitDisabled (isSubmitting : Bool) (foodName : String) : Bool :=
  isSubmitting || foodName.trim = ""

/-- The serving-quantity change handler of FoodForm.tsx line 192:
setQuantity(parseFloat(value) || 1); a NaN or zero parse falls through
to 1. -/
def onQuantityChange (value : String) : ℚ :=
  match jsParseFloat value with
  | none => 1
  | some v => if v = 0 then 1 else v

end FoodForm

/-- deleteFoodEntry of DailyDashboard.tsx lines 114-161, under
sequential execution with a signed-in session and no store failure:
look the entry up (line 119; sequentially the dashboard list mirrors
the store, so this is a store lookup) and return silently if absent
(line 120); delete the row (lines 123-128); then, when a daily log row
is loaded, write back its four totals minus the entry values, each
floored at zero with Math.max (lines 131-145). -/
def deleteFoodEntry (st : LedgerState) (entryId : Nat) : LedgerState :=
  match st.entries.find? (fun e => e.id == entryId) with
  | none => st
  | some entry =>
    let entries' := st.entries.filter (fun e => e.id != entryId)
    match st.dailyLog with
    | none => { st with entries := entries' }
    | some l =>
      { st with
        entries := entries'
        dailyLog := some ⟨max 0 (l.total_calories - entry.calories),
                          max 0 (l.total_protein - entry.protein),
                          max 0 (l.total_carbs - entry.carbs),
                          max 0 (l.total_fat - entry.fat)⟩ }

/-- The daily log shown by loadTodayData: the stored row if one exists,
otherwise a synthesized zero log (DailyDashboard.tsx lines 81-90). -/
def loadedTotals (st : LedgerState) : DailyLog :=
  st.dailyLog.getD zeroLog

/-- Arguments of one submission of the food form. -/
structure RecordArgs where
  foodName : String
  brand : String
  quantity : ℚ
  nutrition : FoodForm.NutritionData

/-- A sequence of form submissions run against the store. -/
def runRecords (st : LedgerState) (rs : List RecordArgs) : LedgerState :=
  rs.foldl (fun s r => FoodForm.handleSubmit s r.foodName r.brand r.quantity r.nutrition) st

/-- A sequence of deletions run against the store. -/
def runDeletes (st : LedgerState) (ids : List Nat) : LedgerState :=
  ids.foldl deleteFoodEntry st

/-- Sums of the stored scaled values over a list of entries, as a
DailyLog for comparison with the aggregate row. -/
def entrySums (es : List FoodEntry) : DailyLog :=
  ⟨(es.map (fun e => e.calories)).sum, (es.map (fun e => e.protein)).sum,
   (es.map (fun e => e.carbs)).sum, (es.map (fun e => e.fat)).sum⟩

theorem sanity_ledger :
    loadedTotals (runDeletes (runRecords initialState
      [⟨"apple", "", 2, ⟨100, 10, 5, 2⟩⟩, ⟨"milk", "brandx", 1, ⟨50, 3, 4, 1⟩⟩]) [0]) =
      ⟨50, 3, 4, 1⟩ := by
  with_unfolding_all decide

/-- C6: for the input text "Total Carbohydrate 30g Carbs 99g", the
extractor resolves the carbs field using the first, more specific
phrase match — total carbohydrate — yielding 30, not 99. -/
theorem carbs_specificity_first_match :
    (extractNutritionFromText "Total Carbohydrate 30g Carbs 99g").carbs = 30 := by
  with_unfolding_all decide

/-- C7 counterexample: the claim says a gram-scale macro phrase followed
by a number with no unit token still populates the macro field; but for
"Protein 12" the protein pattern requires a g token after the number,
the match fails, and the field stays at its zero default instead of
holding 12. -/
theorem gram_unitless_counterexample :
    (extractNutritionFromText "Protein 12").protein = 0 ∧
    ¬ (extractNutritionFromText "Protein 12").protein = 12 := by
  with_unfolding_all decide

/-- C2 counterexample: on input with no match for any pattern, the four
required fields of the returned record hold the number zero — they are
initialised to 0 and have no separate absent state — contradicting the
claim that an unmatched required field is left unpopulated, distinct
from numeric zero. (The optional fields are genuinely absent.) -/
theorem required_fields_zero_counterexample :
    (extractNutritionFromText "").calories = 0 ∧
    (extractNutritionFromText "").protein = 0 ∧
    (extractNutritionFromText "").carbs = 0 ∧
    (extractNutritionFromText "").fat = 0 := by
  with_unfolding_all decide

/-- C3 counterexample: when the initial select reports no rows
(PGRST116) and the create attempt reports that the record already
exists (unique violation 23505), find-or-create propagates the error —
handleSubmit throws — instead of treating it as success and re-reading
the existing row. -/
theorem duplicate_create_fatal_counterexample :
    findOrCreateDailyLog (Except.error ⟨"PGRST116"⟩) (Except.error ⟨"23505"⟩) =
      Except.error ⟨"23505"⟩ := by
  simp [findOrCreateDailyLog]

/-- C3 amended: the find-or-create uses the row found by the initial
select when there is one (never consulting the create attempt), creates
a fresh zero log when the select reports no rows and the create
succeeds, and throws any error of the create attempt — including a
record-already-exists outcome — as a fatal error of recordEntry;
idempotence across sequential calls holds only because the second call
finds the row in its initial select. -/
theorem duplicate_create_fatal_amended (l newLog : DailyLog) (e : StoreErr) :
    findOrCreateDailyLog (Except.ok l) (Except.error e) = Except.ok l ∧
    findOrCreateDailyLog (Except.ok l) (Except.ok newLog) = Except.ok l ∧
    findOrCreateDailyLog (Except.error ⟨"PGRST116"⟩) (Except.error e) = Except.error e ∧
    findOrCreateDailyLog (Except.error ⟨"PGRST116"⟩) (Except.ok newLog) = Except.ok newLog := by
  refine ⟨rfl, rfl, ?_, ?_⟩ <;> simp [findOrCreateDailyLog]

/-- C4 counterexample: a submission with an empty food name and a
negative quantity is not rejected with a ValidationError before
persistence; handleSubmit persists the entry row (empty name, quantity
-2, scaled values -200, -20, -10, -4) and writes the negative totals. -/
theorem no_validation_counterexample :
    FoodForm.handleSubmit initialState "" "" (-2) ⟨100, 10, 5, 2⟩ =
      ⟨some ⟨-200, -20, -10, -4⟩, [⟨0, "", none, -2, -200, -20, -10, -4⟩], 1⟩ := by
  with_unfolding_all decide

/-- C4 amended: handleSubmit itself performs no validation and defines
no ValidationError — it persists whatever name and quantity it is
given, including a negative quantity; an empty-after-trim food name is
prevented from being submitted only by the form UI, whose submit button
is disabled while foodName.trim() is empty, and the quantity input
handler replaces a NaN or zero parse by 1 but admits negative
values. -/
theorem no_validation_amended :
    FoodForm.submitDisabled false "   " = true ∧
    FoodForm.submitDisabled false "" = true ∧
    FoodForm.submitDisabled false "Greek Yogurt" = false ∧
    FoodForm.onQuantityChange "abc" = 1 ∧
    FoodForm.onQuantityChange "-2" = -2 ∧
    (FoodForm.handleSubmit initialState "x" "" (-2) ⟨100, 10, 5, 2⟩).entries =
      [⟨0, "x", none, -2, -200, -20, -10, -4⟩] := by
  with_unfolding_all decide

/-- C10: the serving-quantity change handler stores the parsed value
exactly when it is a nonzero number, stores 1 when the input parses to
zero or fails to parse, and consequently never stores zero (NaN is not
a value of the exact-rational model; the none parse outcome stands for
it). -/
theorem quantity_change_never_zero (s : String) :
    FoodForm.onQuantityChange s ≠ 0 ∧
    (jsParseFloat s = none → FoodForm.onQuantityChange s = 1) ∧
    (jsParseFloat s = some 0 → FoodForm.onQuantityChange s = 1) ∧
    (∀ v : ℚ, jsParseFloat s = some v → v ≠ 0 → FoodForm.onQuantityChange s = v) := by
  rcases hp : jsParseFloat s with _ | v
  · refine ⟨?_, fun _ => ?_, fun h => ?_, fun v hv => ?_⟩ <;>
      simp [FoodForm.onQuantityChange, hp] at *
  · by_cases hv : v = 0
    · subst hv
      refine ⟨?_, fun h => ?_, fun _ => ?_, fun w hw hw0 => ?_⟩ <;>
        simp [FoodForm.onQuantityChange, hp] at *
      · exact absurd hw.symm hw0
    · refine ⟨?_, fun h => ?_, fun h => ?_, fun w hw hw0 => ?_⟩ <;>
        simp [FoodForm.onQuantityChange, hp, hv] at *
      · exact hw

/-- C10 witness: a zero parse is stored as 1 and a nonzero parse is
stored as parsed. -/
theorem quantity_change_never_zero_witness :
    FoodForm.onQuantityChange "0" = 1 ∧ FoodForm.onQuantityChange "2.5" = 5/2 := by
  constructor
  · exact (quantity_change_never_zero "0").2.2.1 (by with_unfolding_all decide)
  · exact (quantity_change_never_zero "2.5").2.2.2 (5/2)
      (by with_unfolding_all decide) (by norm_num)

/-- Normalization as claim C9 words it, modelled from the spec sentence
of section 4.1: keep letters, digits, whitespace and . - : / %, replace
every other character with a single space, collapse whitespace runs,
lower-case. -/
def specKeepChar (c : Char) : Bool :=
  c.isAlpha || c.isDigit || isJsWs c || isKeptPunct c

/-- The normalization procedure claimed by the spec. -/
def specNormalize (s : String) : String :=
  String.mk
    ((collapseWs (s.data.map (fun c => if specKeepChar c then c else ' '))).map Char.toLower)

/-- The character set the code keeps: the claimed set plus the
underscore, which the regex class \w also matches. -/
def amendedKeepChar (c : Char) : Bool :=
  c.isAlpha || c.isDigit || c = '_' || isJsWs c || isKeptPunct c

/-- The claimed normalization amended with the underscore. -/
def amendedNormalize (s : String) : String :=
  String.mk
    ((collapseWs (s.data.map (fun c => if amendedKeepChar c then c else ' '))).map Char.toLower)

/-- C9 counterexample: the cleaning step of the extractor keeps the
underscore (regex class \w), while the claimed character set replaces
it with a space; the two normalizations differ on "a_b". -/
theorem normalize_underscore_counterexample :
    cleanText "a_b" = "a_b" ∧ specNormalize "a_b" = "a b" ∧
    ¬ cleanText "a_b" = specNormalize "a_b" := by
  refine ⟨by decide, by decide, by decide⟩

/-- C9 amended: the extractor cleaning step equals the claimed
normalization once the kept set is extended with the underscore —
replace every character outside {letters, digits, whitespace,
underscore, . - : / %} with a single space, collapse whitespace runs to
one space, and lower-case. -/
theorem normalize_amended (s : String) : cleanText s = amendedNormalize s := by
  have hk : keepOrSpace = fun c => if amendedKeepChar c then c else ' ' := by
    funext c
    simp [keepOrSpace, amendedKeepChar, isWordChar, Bool.or_assoc]
  rw [cleanText, cleanTextList, amendedNormalize, hk]

/-- If a pattern has no match, the extraction loop leaves that field
unassigned. -/
theorem fieldValue_of_no_match {p : Pat} {t : List Char}
    (h : runPat p t = none) : fieldValue p t = none := by
  unfold fieldValue
  rw [h]

/-- A JavaScript number as parseFloat can produce it on the extraction
path: a finite value (kept exact) or an infinity, the result of
overflow when the parsed decimal exceeds the largest IEEE double. -/
inductive JsVal where
  | num : ℚ → JsVal
  | posInf : JsVal
  | negInf : JsVal
deriving DecidableEq

/-- The smallest exact magnitude that IEEE-754 binary64
round-to-nearest-even sends to Infinity: 2^1024 - 2^970, the midpoint
between the largest finite double 2^1024 - 2^971 and 2^1024 (ties go
to the even candidate 2^1024, hence Infinity). -/
def overflowThreshold : ℚ := ((2 ^ 1024 - 2 ^ 970 : ℕ) : ℚ)

/-- Send an exact parsed value into the double-aware model: magnitudes
reaching the overflow threshold become infinities; finite results are
kept exact rather than rounded to the nearest double (no claim depends
on finite rounding). -/
def toDoubleVal (q : ℚ) : JsVal :=
  if overflowThreshold ≤ q then JsVal.posInf
  else if q ≤ -overflowThreshold then JsVal.negInf
  else JsVal.num q

/-- JavaScript parseFloat as it behaves on an IEEE double: the exact
decimal of jsParseFloatList pushed through the overflow threshold;
none still models NaN. -/
def jsParseFloatDouble (s : List Char) : Option JsVal :=
  (jsParseFloatList s).map toDoubleVal

/-- The JavaScript comparison value >= 0 on a parseFloat result: true
of every non-negative finite value and of Infinity, false of negative
values and of -Infinity (NaN is the none of the surrounding option,
checked separately by isNaN). -/
def jsGeZero : JsVal → Bool
  | JsVal.num q => decide (0 ≤ q)
  | JsVal.posInf => true
  | JsVal.negInf => false

/-- The extraction-loop body of FoodScanner.tsx lines 48-56 over the
double-aware number model: parseFloat(match[1]) may overflow to
Infinity, and the guard !isNaN(value) && value >= 0 checks nothing
about finiteness, so an infinite value is assigned like any other. -/
def fieldValueDouble (p : Pat) (t : List Char) : Option JsVal :=
  match runPat p t with
  | none => none
  | some cap =>
    match jsParseFloatDouble cap with
    | none => none
    | some v => if jsGeZero v then some v else none

/-- The NutritionData record of src/types/nutrition.ts with its number
fields read as JavaScript doubles. -/
structure NutritionDataDouble where
  calories : JsVal
  protein : JsVal
  carbs : JsVal
  fat : JsVal
  saturatedFat : Option JsVal
  transFat : Option JsVal
  cholesterol : Option JsVal
  sodium : Option JsVal
  fiber : Option JsVal
  sugar : Option JsVal
  addedSugar : Option JsVal
  vitaminD : Option JsVal
  calcium : Option JsVal
  iron : Option JsVal
  potassium : Option JsVal
deriving DecidableEq

/-- extractNutritionFromText of FoodScanner.tsx lines 22-59 with the
parseFloat results carried through the IEEE-overflow model: identical
to extractNutritionFromText except that a capture whose decimal value
reaches the overflow threshold is populated as Infinity instead of its
exact value; the two embeddings agree on every text whose captures
stay below the threshold. -/
def extractNutritionFromTextDouble (s : String) : NutritionDataDouble :=
  let t := cleanTextList s
  { calories := (fieldValueDouble caloriesPat t).getD (JsVal.num 0)
    protein := (fieldValueDouble proteinPat t).getD (JsVal.num 0)
    carbs := (fieldValueDouble carbsPat t).getD (JsVal.num 0)
    fat := (fieldValueDouble fatPat t).getD (JsVal.num 0)
    saturatedFat := fieldValueDouble saturatedFatPat t
    transFat := fieldValueDouble transFatPat t
    cholesterol := fieldValueDouble cholesterolPat t
    sodium := fieldValueDouble sodiumPat t
    fiber := fieldValueDouble fiberPat t
    sugar := fieldValueDouble sugarPat t
    addedSugar := fieldValueDouble addedSugarPat t
    vitaminD := fieldValueDouble vitaminDPat t
    calcium := fieldValueDouble calciumPat t
    iron := fieldValueDouble ironPat t
    potassium := fieldValueDouble potassiumPat t }

/-- What the guard of FoodScanner.tsx line 52 admits: a non-negative
finite number or positive Infinity. -/
def NonnegOrInf (v : JsVal) : Prop :=
  v = JsVal.posInf ∨ ∃ q : ℚ, v = JsVal.num q ∧ 0 ≤ q

set_option maxRecDepth 16384 in
/-- C8 counterexample: the guard !isNaN(value) && value >= 0 never
checks finiteness. A protein capture of 309 nines (about 1e309, beyond
the largest double) overflows parseFloat to Infinity, which is not NaN
and satisfies >= 0, so the field is populated with Infinity — a
populated field that is not a finite number, falsifying the claim. -/
theorem infinite_capture_populated_counterexample :
    (extractNutritionFromTextDouble
      "Protein 999999999999999999999999999999999999999999999999999999999999999999999999999999999999999999999999999999999999999999999999999999999999999999999999999999999999999999999999999999999999999999999999999999999999999999999999999999999999999999999999999999999999999999999999999999999999999999999999999999999999999999999g").protein = JsVal.posInf := by
  with_unfolding_all decide

/-- A field assigned by the extraction loop holds a value the guard
admits: a non-negative finite number or positive Infinity. -/
theorem fieldValueDouble_nonnegOrInf {p : Pat} {t : List Char} {v : JsVal}
    (h : fieldValueDouble p t = some v) : NonnegOrInf v := by
  unfold fieldValueDouble at h
  split at h
  · exact Option.noConfusion h
  · split at h
    · exact Option.noConfusion h
    · split at h
      · cases h
        rename_i hv
        cases v with
        | num q => exact Or.inr ⟨q, rfl, by simpa [jsGeZero] using hv⟩
        | posInf => exact Or.inl rfl
        | negInf => simp [jsGeZero] at hv
      · exact Option.noConfusion h

/-- A required field, defaulting to the number zero, holds an admitted
value as well. -/
theorem fieldValueDouble_getD_nonnegOrInf (p : Pat) (t : List Char) :
    NonnegOrInf ((fieldValueDouble p t).getD (JsVal.num 0)) := by
  rcases h : fieldValueDouble p t with _ | v
  · exact Or.inr ⟨0, rfl, le_refl 0⟩
  · simpa using fieldValueDouble_nonnegOrInf h

/-- C8 amended: a captured value is discarded (the field left
unpopulated) only when it fails to parse (NaN) or is negative; the
guard does not check finiteness. Consequently every populated field of
the record returned by extract is a non-negative number or positive
Infinity — never NaN and never negative, but not necessarily
finite. -/
theorem extract_populated_nonneg_or_inf (s : String) :
    NonnegOrInf (extractNutritionFromTextDouble s).calories ∧
    NonnegOrInf (extractNutritionFromTextDouble s).protein ∧
    NonnegOrInf (extractNutritionFromTextDouble s).carbs ∧
    NonnegOrInf (extractNutritionFromTextDouble s).fat ∧
    (∀ v : JsVal, (extractNutritionFromTextDouble s).saturatedFat = some v → NonnegOrInf v) ∧
    (∀ v : JsVal, (extractNutritionFromTextDouble s).transFat = some v → NonnegOrInf v) ∧
    (∀ v : JsVal, (extractNutritionFromTextDouble s).cholesterol = some v → NonnegOrInf v) ∧
    (∀ v : JsVal, (extractNutritionFromTextDouble s).sodium = some v → NonnegOrInf v) ∧
    (∀ v : JsVal, (extractNutritionFromTextDouble s).fiber = some v → NonnegOrInf v) ∧
    (∀ v : JsVal, (extractNutritionFromTextDouble s).sugar = some v → NonnegOrInf v) ∧
    (∀ v : JsVal, (extractNutritionFromTextDouble s).addedSugar = some v → NonnegOrInf v) ∧
    (∀ v : JsVal, (extractNutritionFromTextDouble s).vitaminD = some v → NonnegOrInf v) ∧
    (∀ v : JsVal, (extractNutritionFromTextDouble s).calcium = some v → NonnegOrInf v) ∧
    (∀ v : JsVal, (extractNutritionFromTextDouble s).iron = some v → NonnegOrInf v) ∧
    (∀ v : JsVal, (extractNutritionFromTextDouble s).potassium = some v → NonnegOrInf v) :=
  ⟨fieldValueDouble_getD_nonnegOrInf _ _, fieldValueDouble_getD_nonnegOrInf _ _,
   fieldValueDouble_getD_nonnegOrInf _ _, fieldValueDouble_getD_nonnegOrInf _ _,
   fun _ h => fieldValueDouble_nonnegOrInf h, fun _ h => fieldValueDouble_nonnegOrInf h,
   fun _ h => fieldValueDouble_nonnegOrInf h, fun _ h => fieldValueDouble_nonnegOrInf h,
   fun _ h => fieldValueDouble_nonnegOrInf h, fun _ h => fieldValueDouble_nonnegOrInf h,
   fun _ h => fieldValueDouble_nonnegOrInf h, fun _ h => fieldValueDouble_nonnegOrInf h,
   fun _ h => fieldValueDouble_nonnegOrInf h, fun _ h => fieldValueDouble_nonnegOrInf h,
   fun _ h => fieldValueDouble_nonnegOrInf h⟩

set_option maxRecDepth 16384 in
/-- C8 amended witness: a text populating sodium with the finite value
10; the populated value is admitted as a non-negative number. -/
theorem extract_populated_nonneg_or_inf_witness :
    (extractNutritionFromTextDouble "Sodium 10mg").sodium = some (JsVal.num 10) ∧
    NonnegOrInf (JsVal.num 10) := by
  constructor
  · with_unfolding_all decide
  · exact (extract_populated_nonneg_or_inf "Sodium 10mg").2.2.2.2.2.2.2.1 (JsVal.num 10)
      (by with_unfolding_all decide)

/-- C2 amended: a nutrient field whose pattern finds no match in the
cleaned text is left at its initial state — absent (none, distinct from
numeric zero) for the eleven optional fields, but the number zero for
the four required fields, which the extractor initialises to 0 and
which have no absent state. -/
theorem unmatched_fields_amended (s : String) :
    (runPat caloriesPat (cleanTextList s) = none → (extractNutritionFromText s).calories = 0) ∧
    (runPat proteinPat (cleanTextList s) = none → (extractNutritionFromText s).protein = 0) ∧
    (runPat carbsPat (cleanTextList s) = none → (extractNutritionFromText s).carbs = 0) ∧
    (runPat fatPat (cleanTextList s) = none → (extractNutritionFromText s).fat = 0) ∧
    (runPat saturatedFatPat (cleanTextList s) = none →
      (extractNutritionFromText s).saturatedFat = none) ∧
    (runPat transFatPat (cleanTextList s) = none →
      (extractNutritionFromText s).transFat = none) ∧
    (runPat cholesterolPat (cleanTextList s) = none →
      (extractNutritionFromText s).cholesterol = none) ∧
    (runPat sodiumPat (cleanTextList s) = none →
      (extractNutritionFromText s).sodium = none) ∧
    (runPat fiberPat (cleanTextList s) = none →
      (extractNutritionFromText s).fiber = none) ∧
    (runPat sugarPat (cleanTextList s) = none →
      (extractNutritionFromText s).sugar = none) ∧
    (runPat addedSugarPat (cleanTextList s) = none →
      (extractNutritionFromText s).addedSugar = none) ∧
    (runPat vitaminDPat (cleanTextList s) = none →
      (extractNutritionFromText s).vitaminD = none) ∧
    (runPat calciumPat (cleanTextList s) = none →
      (extractNutritionFromText s).calcium = none) ∧
    (runPat ironPat (cleanTextList s) = none →
      (extractNutritionFromText s).iron = none) ∧
    (runPat potassiumPat (cleanTextList s) = none →
      (extractNutritionFromText s).potassium = none) := by
  refine ⟨?_, ?_, ?_, ?_, ?_, ?_, ?_, ?_, ?_, ?_, ?_, ?_, ?_, ?_, ?_⟩ <;>
    intro h <;> simp [extractNutritionFromText, fieldValue_of_no_match h]

/-- C2 amended witness: on the empty text no pattern matches; a
required field reads zero, an optional field reads absent. -/
theorem unmatched_fields_amended_witness :
    (extractNutritionFromText "").calories = 0 ∧
    (extractNutritionFromText "").sodium = none := by
  constructor
  · exact (unmatched_fields_amended "").1 (by with_unfolding_all decide)
  · exact (unmatched_fields_amended "").2.2.2.2.2.2.2.1 (by with_unfolding_all decide)

/-- The four loaded totals are non-negative. -/
def nonnegLog (l : DailyLog) : Prop :=
  0 ≤ l.total_calories ∧ 0 ≤ l.total_protein ∧ 0 ≤ l.total_carbs ∧ 0 ≤ l.total_fat

instance (l : DailyLog) : Decidable (nonnegLog l) := by
  unfold nonnegLog
  infer_instance

/-- Deleting an entry removes from the store exactly the rows carrying
the requested identity, whether or not the lookup found one. -/
theorem deleteFoodEntry_entries (st : LedgerState) (entryId : Nat) :
    (deleteFoodEntry st entryId).entries = st.entries.filter (fun e => e.id != entryId) := by
  rcases h : st.entries.find? (fun e => e.id == entryId) with _ | entry
  · have hall : ∀ e ∈ st.entries, (e.id != entryId) = true := by
      intro e he
      have := List.find?_eq_none.mp h e he
      simpa using this
    simp [deleteFoodEntry, h, List.filter_eq_self.mpr hall]
  · rcases hd : st.dailyLog with _ | l <;> simp [deleteFoodEntry, h, hd]

/-- A deletion whose lookup finds nothing changes nothing. -/
theorem deleteFoodEntry_notFound {st : LedgerState} {entryId : Nat}
    (h : st.entries.find? (fun e => e.id == entryId) = none) :
    deleteFoodEntry st entryId = st := by
  simp [deleteFoodEntry, h]

/-- After a deletion, no row with the deleted identity remains to be
found. -/
theorem deleteFoodEntry_find_again (st : LedgerState) (entryId : Nat) :
    (deleteFoodEntry st entryId).entries.find? (fun e => e.id == entryId) = none := by
  rw [deleteFoodEntry_entries, List.find?_eq_none]
  intro e he
  have h2 := (List.mem_filter.mp he).2
  simp at h2
  simp [h2]

/-- C5: deleting the same entry identity a second time is a no-op — the
lookup finds nothing, no error is raised and no aggregate change is
written — and a deletion never drives any of the four loaded aggregate
totals negative. -/
theorem delete_idempotent_nonneg (st : LedgerState) (entryId : Nat) :
    deleteFoodEntry (deleteFoodEntry st entryId) entryId = deleteFoodEntry st entryId ∧
    (nonnegLog (loadedTotals st) → nonnegLog (loadedTotals (deleteFoodEntry st entryId))) := by
  constructor
  · exact deleteFoodEntry_notFound (deleteFoodEntry_find_again st entryId)
  · intro hn
    rcases hf : st.entries.find? (fun e => e.id == entryId) with _ | entry
    · rwa [deleteFoodEntry_notFound hf]
    · rcases hd : st.dailyLog with _ | l
      · simp [deleteFoodEntry, hf, hd, loadedTotals, zeroLog, nonnegLog]
      · simp only [deleteFoodEntry, hf, hd, loadedTotals, Option.getD_some]
        exact ⟨le_max_left _ _, le_max_left _ _, le_max_left _ _, le_max_left _ _⟩

/-- C5 witness: a store holding one entry, deleted twice. -/
theorem delete_idempotent_nonneg_witness :
    deleteFoodEntry (deleteFoodEntry ⟨some ⟨10, 1, 2, 3⟩, [⟨0, "a", none, 1, 10, 1, 2, 3⟩], 1⟩ 0) 0 =
      deleteFoodEntry ⟨some ⟨10, 1, 2, 3⟩, [⟨0, "a", none, 1, 10, 1, 2, 3⟩], 1⟩ 0 ∧
    nonnegLog (loadedTotals
      (deleteFoodEntry ⟨some ⟨10, 1, 2, 3⟩, [⟨0, "a", none, 1, 10, 1, 2, 3⟩], 1⟩ 0)) := by
  constructor
  · exact (delete_idempotent_nonneg ⟨some ⟨10, 1, 2, 3⟩, [⟨0, "a", none, 1, 10, 1, 2, 3⟩], 1⟩ 0).1
  · exact (delete_idempotent_nonneg ⟨some ⟨10, 1, 2, 3⟩, [⟨0, "a", none, 1, 10, 1, 2, 3⟩], 1⟩ 0).2
      (by with_unfolding_all decide)

/-- Consuming a literal leaves a suffix of the text; its members are
members of the text. -/
theorem stripLit_subset : ∀ (l s s' : List Char), stripLit l s = some s' →
    ∀ a ∈ s', a ∈ s
  | [], s, s', h => by
    cases h
    exact fun a ha => ha
  | c :: cs, [], s', h => Option.noConfusion h
  | c :: cs, d :: ds, s', h => by
    unfold stripLit at h
    by_cases hc : c = d
    · rw [if_pos hc] at h
      exact fun a ha => List.mem_cons_of_mem _ (stripLit_subset cs ds s' h a ha)
    · rw [if_neg hc] at h
      exact Option.noConfusion h

/-- The head of a matched nonempty literal occurs in the text. -/
theorem stripLit_head_mem {c : Char} {cs s s' : List Char}
    (h : stripLit (c :: cs) s = some s') : c ∈ s := by
  cases s with
  | nil => exact Option.noConfusion h
  | cons d ds =>
    unfold stripLit at h
    by_cases hc : c = d
    · subst hc
      exact List.mem_cons_self _ _
    · rw [if_neg hc] at h
      exact Option.noConfusion h

/-- Members of a dropWhile suffix are members of the list. -/
theorem dropWhile_mem {p : Char → Bool} : ∀ {l : List Char} {a : Char},
    a ∈ l.dropWhile p → a ∈ l := by
  intro l
  induction l with
  | nil => intro a ha; simp at ha
  | cons c cs ih =>
    intro a ha
    by_cases hc : p c
    · rw [List.dropWhile_cons_of_pos hc] at ha
      exact List.mem_cons_of_mem _ (ih ha)
    · rw [List.dropWhile_cons_of_neg hc] at ha
      exact ha

/-- Matching a token sequence leaves a rest whose members are members of
the text. -/
theorem matchToks_subset : ∀ (ts : List Tok) (s s' : List Char),
    matchToks ts s = some s' → ∀ a ∈ s', a ∈ s
  | [], s, s', h => by
    cases h
    exact fun a ha => ha
  | Tok.lit l :: ts, s, s', h => by
    unfold matchToks at h
    rcases hl : stripLit l s with _ | s1
    · rw [hl] at h
      exact Option.noConfusion h
    · rw [hl] at h
      exact fun a ha => stripLit_subset l s s1 hl a (matchToks_subset ts s1 s' h a ha)
  | Tok.gap :: ts, s, s', h => by
    unfold matchToks at h
    exact fun a ha => dropWhile_mem (matchToks_subset ts _ s' h a ha)
  | Tok.num :: ts, s, s', h => by
    unfold matchToks at h
    by_cases he : (s.span Char.isDigit).1.isEmpty
    · rw [if_pos he] at h
      exact Option.noConfusion h
    · rw [if_neg he] at h
      have hsub : ∀ a ∈ (s.span Char.isDigit).2, a ∈ s := by
        intro a ha
        rw [List.span_eq_take_drop] at ha
        exact dropWhile_mem ha
      exact fun a ha => hsub a (matchToks_subset ts _ s' h a ha)

/-- The rest after the captured number has its members in the text. -/
theorem matchNumber_subset {s cap s' : List Char}
    (h : matchNumber s = some (cap, s')) : ∀ a ∈ s', a ∈ s := by
  have hs2 : ∀ a ∈ (s.span Char.isDigit).2, a ∈ s := by
    intro a ha
    rw [List.span_eq_take_drop] at ha
    exact dropWhile_mem ha
  simp only [matchNumber] at h
  split at h
  · exact Option.noConfusion h
  · split at h
    · rename_i r heq
      split at h
      · cases h
        exact hs2
      · cases h
        intro a ha
        apply hs2
        rw [heq]
        apply List.mem_cons_of_mem
        rw [List.span_eq_take_drop] at ha
        exact dropWhile_mem ha
    · cases h
      exact hs2

/-- A successful \s*g unit match consumes a g from the text. -/
theorem matchUnit_g_mem {s : List Char} (h : matchUnit unitG s = true) : 'g' ∈ s := by
  simp only [matchUnit, unitG, List.any_cons, List.any_nil, Bool.or_false] at h
  rcases ho : matchToks [Tok.gap, Tok.lit ['g']] s with _ | s1
  · rw [ho] at h
    simp at h
  · simp only [matchToks] at ho
    rcases hl : stripLit ['g'] (s.dropWhile isJsWs) with _ | s2
    · simp [hl] at ho
    · exact dropWhile_mem (stripLit_head_mem hl)

/-- A successful match of one alternative of a pattern whose unit suffix
is \s*g implies the text contains a g. -/
theorem matchAlt_g_mem {alt : List Tok} {s cap : List Char}
    (h : matchAlt alt unitG s = some cap) : 'g' ∈ s := by
  simp only [matchAlt] at h
  rcases h1 : matchToks alt s with _ | s1
  · rw [h1] at h
    exact Option.noConfusion h
  · simp only [h1] at h
    rcases h2 : matchNumber (s1.dropWhile (fun c => isJsWs c || c = ':')) with _ | cs
    · simp only [h2] at h
      exact Option.noConfusion h
    · rcases cs with ⟨cap', s3⟩
      simp only [h2] at h
      by_cases hu : matchUnit unitG s3
      · have hg : 'g' ∈ s3 := matchUnit_g_mem hu
        have hg2 := matchNumber_subset h2 'g' hg
        have hg3 := dropWhile_mem hg2
        exact matchToks_subset alt s s1 h1 'g' hg3
      · rw [if_neg hu] at h
        exact Option.noConfusion h

/-- Trying the alternatives in order preserves the property. -/
theorem tryAlts_g_mem : ∀ {alts : List (List Tok)} {s cap : List Char},
    tryAlts alts unitG s = some cap → 'g' ∈ s := by
  intro alts
  induction alts with
  | nil =>
    intro s cap h
    exact Option.noConfusion h
  | cons a rest ih =>
    intro s cap h
    unfold tryAlts at h
    rcases ha : matchAlt a unitG s with _ | cap'
    · rw [ha] at h
      exact ih h
    · exact matchAlt_g_mem ha

/-- A pattern requiring the \s*g unit suffix can only match a text
containing a g. -/
theorem runPat_g_mem {p : Pat} (hu : p.unitAlts = unitG) :
    ∀ {s : List Char} {cap : List Char}, runPat p s = some cap → 'g' ∈ s := by
  intro s
  induction s with
  | nil =>
    intro cap h
    unfold runPat at h
    rw [hu] at h
    exact tryAlts_g_mem h
  | cons c rest ih =>
    intro cap h
    unfold runPat at h
    rcases ht : tryAlts p.alts p.unitAlts (c :: rest) with _ | cap'
    · rw [ht] at h
      exact List.mem_cons_of_mem _ (ih h)
    · rw [hu] at ht
      exact tryAlts_g_mem ht

/-- Members of the collapsed list are spaces or members of the
original. -/
theorem collapseWs_mem {a : Char} : ∀ (l : List Char), a ∈ collapseWs l → a = ' ' ∨ a ∈ l
  | [] => by simp [collapseWs]
  | [c] => by
    intro ha
    by_cases h : isJsWs c
    · simp [collapseWs, h] at ha
      exact Or.inl ha
    · simp [collapseWs, h] at ha
      subst ha
      exact Or.inr (List.mem_cons_self _ _)
  | c :: c' :: cs => by
    intro ha
    by_cases h : isJsWs c
    · by_cases h' : isJsWs c'
      · rw [collapseWs, if_pos h, if_pos h'] at ha
        rcases collapseWs_mem (c' :: cs) ha with h1 | h1
        · exact Or.inl h1
        · exact Or.inr (List.mem_cons_of_mem _ h1)
      · rw [collapseWs, if_pos h, if_neg h'] at ha
        rcases List.mem_cons.mp ha with rfl | ha
        · exact Or.inl rfl
        · rcases collapseWs_mem (c' :: cs) ha with h1 | h1
          · exact Or.inl h1
          · exact Or.inr (List.mem_cons_of_mem _ h1)
    · rw [collapseWs, if_neg h] at ha
      rcases List.mem_cons.mp ha with rfl | ha
      · exact Or.inr (List.mem_cons_self _ _)
      · rcases collapseWs_mem (c' :: cs) ha with h1 | h1
        · exact Or.inl h1
        · exact Or.inr (List.mem_cons_of_mem _ h1)

/-- If no character of the raw text lower-cases to g, the cleaned text
contains no g. -/
theorem cleanTextList_no_g {s : String}
    (h : ∀ c ∈ s.data, Char.toLower c ≠ 'g') : 'g' ∉ cleanTextList s := by
  intro hg
  unfold cleanTextList at hg
  rcases List.mem_map.mp hg with ⟨d, hd, hdl⟩
  rcases collapseWs_mem _ hd with h1 | h1
  · subst h1
    exact absurd hdl (by decide)
  · rcases List.mem_map.mp h1 with ⟨e, he, hke⟩
    unfold keepOrSpace at hke
    by_cases hk : isWordChar e || isJsWs e || isKeptPunct e
    · rw [if_pos hk] at hke
      subst hke
      exact h e he hdl
    · rw [if_neg hk] at hke
      subst hke
      exact absurd hdl (by decide)

/-- A pattern with the \s*g unit suffix has no match in a g-free
text. -/
theorem runPat_eq_none_of_no_g {p : Pat} (hu : p.unitAlts = unitG) {t : List Char}
    (hg : 'g' ∉ t) : runPat p t = none := by
  rcases h : runPat p t with _ | cap
  · rfl
  · exact absurd (runPat_g_mem hu h) hg

/-- C7 amended: a gram-scale macro phrase followed by a number with no
unit token is not accepted — the protein, carbs and fat patterns
require a g token after the captured number, so on any text without a g
(no character lower-casing to g) all three macro fields stay at their
zero defaults; only the calories pattern accepts a bare number. -/
theorem gram_unit_required_amended (s : String)
    (h : ∀ c ∈ s.data, Char.toLower c ≠ 'g') :
    (extractNutritionFromText s).protein = 0 ∧
    (extractNutritionFromText s).carbs = 0 ∧
    (extractNutritionFromText s).fat = 0 := by
  have hg := cleanTextList_no_g h
  have h1 := fieldValue_of_no_match (runPat_eq_none_of_no_g (p := proteinPat) rfl hg)
  have h2 := fieldValue_of_no_match (runPat_eq_none_of_no_g (p := carbsPat) rfl hg)
  have h3 := fieldValue_of_no_match (runPat_eq_none_of_no_g (p := fatPat) rfl hg)
  refine ⟨?_, ?_, ?_⟩ <;> simp [extractNutritionFromText, h1, h2, h3]

/-- C7 amended witness: "Protein 12" contains no g, so its protein
field stays zero. -/
theorem gram_unit_required_amended_witness :
    (extractNutritionFromText "Protein 12").protein = 0 :=
  (gram_unit_required_amended "Protein 12" (by decide)).1

/-- The ledger invariant maintained under sequential execution: the
loaded totals equal the sums over the stored entries, every stored
scaled value is non-negative, row identities are distinct and below the
next fresh identity, and a missing log row means no entries were ever
recorded. -/
def GoodState (st : LedgerState) : Prop :=
  loadedTotals st = entrySums st.entries ∧
  (∀ e ∈ st.entries, 0 ≤ e.calories ∧ 0 ≤ e.protein ∧ 0 ≤ e.carbs ∧ 0 ≤ e.fat) ∧
  (st.entries.map (fun e => e.id)).Nodup ∧
  (∀ e ∈ st.entries, e.id < st.nextId) ∧
  (st.dailyLog = none → st.entries = [])

/-- Closed form of a sequential handleSubmit: whichever way the
find-or-create went, the proceeded-with log is the stored one or the
zero log, the scaled entry is prepended and the totals grow by the
scaled values. -/
theorem handleSubmit_eq (st : LedgerState) (name brand : String) (q : ℚ)
    (n : FoodForm.NutritionData) :
    FoodForm.handleSubmit st name brand q n =
      { dailyLog := some ⟨(st.dailyLog.getD zeroLog).total_calories + n.calories * q,
                          (st.dailyLog.getD zeroLog).total_protein + n.protein * q,
                          (st.dailyLog.getD zeroLog).total_carbs + n.carbs * q,
                          (st.dailyLog.getD zeroLog).total_fat + n.fat * q⟩
        entries := ⟨st.nextId, name, if brand = "" then none else some brand, q,
                    n.calories * q, n.protein * q, n.carbs * q, n.fat * q⟩ :: st.entries
        nextId := st.nextId + 1 } := by
  rcases hd : st.dailyLog with _ | l <;>
    simp [FoodForm.handleSubmit, findOrCreateDailyLog, hd]

/-- A sequential submission with non-negative per-serving values and
non-negative quantity preserves the ledger invariant. -/
theorem handleSubmit_good {st : LedgerState} {name brand : String} {q : ℚ}
    {n : FoodForm.NutritionData} (hg : GoodState st) (hq : 0 ≤ q)
    (hn : 0 ≤ n.calories ∧ 0 ≤ n.protein ∧ 0 ≤ n.carbs ∧ 0 ≤ n.fat) :
    GoodState (FoodForm.handleSubmit st name brand q n) := by
  obtain ⟨ht, hnn, hnd, hb, _⟩ := hg
  have h1 := congrArg DailyLog.total_calories ht
  have h2 := congrArg DailyLog.total_protein ht
  have h3 := congrArg DailyLog.total_carbs ht
  have h4 := congrArg DailyLog.total_fat ht
  simp only [entrySums, loadedTotals] at h1 h2 h3 h4
  rw [handleSubmit_eq]
  refine ⟨?_, ?_, ?_, ?_, ?_⟩
  · simp only [loadedTotals, Option.getD_some, entrySums, List.map_cons, List.sum_cons,
      DailyLog.mk.injEq]
    refine ⟨?_, ?_, ?_, ?_⟩
    · rw [h1]; exact add_comm _ _
    · rw [h2]; exact add_comm _ _
    · rw [h3]; exact add_comm _ _
    · rw [h4]; exact add_comm _ _
  · intro e he
    rcases List.mem_cons.mp he with rfl | he
    · exact ⟨mul_nonneg hn.1 hq, mul_nonneg hn.2.1 hq,
             mul_nonneg hn.2.2.1 hq, mul_nonneg hn.2.2.2 hq⟩
    · exact hnn e he
  · simp only [List.map_cons]
    rw [List.nodup_cons]
    constructor
    · intro hmem
      rcases List.mem_map.mp hmem with ⟨e, he, hide⟩
      exact absurd (hide ▸ hb e he) (lt_irrefl _)
    · exact hnd
  · intro e he
    rcases List.mem_cons.mp he with rfl | he
    · exact Nat.lt_succ_self _
    · exact Nat.lt_succ_of_lt (hb e he)
  · intro hnone
    exact Option.noConfusion hnone

/-- Removing the rows with a given identity from a list with distinct
identities subtracts exactly the hit row's contribution from any
projection sum. -/
theorem sum_filter_erase (g : FoodEntry → ℚ) :
    ∀ (l : List FoodEntry) (k : Nat) (e : FoodEntry),
      (l.map (fun x => x.id)).Nodup → e ∈ l → e.id = k →
      ((l.filter (fun x => x.id != k)).map g).sum = (l.map g).sum - g e
  | [], _, _, _, hmem, _ => absurd hmem (List.not_mem_nil _)
  | x :: xs, k, e, hnd, hmem, hek => by
    have hx : x.id ∉ xs.map (fun y => y.id) := (List.nodup_cons.mp (by simpa using hnd)).1
    have hxs : (xs.map (fun y => y.id)).Nodup := (List.nodup_cons.mp (by simpa using hnd)).2
    rcases List.mem_cons.mp hmem with rfl | he
    · have hxk : (e.id != k) = false := by simp [hek]
      have hall : ∀ y ∈ xs, (y.id != k) = true := by
        intro y hy
        have hne : y.id ≠ k := by
          intro hc
          exact hx (List.mem_map.mpr ⟨y, hy, by rw [hc, hek]⟩)
        simpa using hne
      simp only [List.filter_cons, hxk, Bool.false_eq_true, if_false,
        List.filter_eq_self.mpr hall, List.map_cons, List.sum_cons]
      ring
    · have hxk : (x.id != k) = true := by
        have hne : x.id ≠ k := by
          intro hc
          exact hx (List.mem_map.mpr ⟨e, he, by rw [hek, hc]⟩)
        simpa using hne
      simp only [List.filter_cons, hxk, if_true, List.map_cons, List.sum_cons]
      rw [sum_filter_erase g xs k e hxs he hek]
      ring

/-- Same removal, counted: the filtered list is one row shorter. -/
theorem length_filter_erase :
    ∀ (l : List FoodEntry) (k : Nat) (e : FoodEntry),
      (l.map (fun x => x.id)).Nodup → e ∈ l → e.id = k →
      (l.filter (fun x => x.id != k)).length = l.length - 1
  | [], _, _, _, hmem, _ => absurd hmem (List.not_mem_nil _)
  | x :: xs, k, e, hnd, hmem, hek => by
    have hx : x.id ∉ xs.map (fun y => y.id) := (List.nodup_cons.mp (by simpa using hnd)).1
    have hxs : (xs.map (fun y => y.id)).Nodup := (List.nodup_cons.mp (by simpa using hnd)).2
    rcases List.mem_cons.mp hmem with rfl | he
    · have hxk : (e.id != k) = false := by simp [hek]
      have hall : ∀ y ∈ xs, (y.id != k) = true := by
        intro y hy
        have hne : y.id ≠ k := by
          intro hc
          exact hx (List.mem_map.mpr ⟨y, hy, by rw [hc, hek]⟩)
        simpa using hne
      simp [List.filter_cons, hxk, List.filter_eq_self.mpr hall]
    · have hxk : (x.id != k) = true := by
        have hne : x.id ≠ k := by
          intro hc
          exact hx (List.mem_map.mpr ⟨e, he, by rw [hek, hc]⟩)
        simpa using hne
      simp only [List.filter_cons, hxk, if_true, List.length_cons]
      rw [length_filter_erase xs k e hxs he hek]
      have hpos : 0 < xs.length := List.length_pos.mpr (List.ne_nil_of_mem he)
      omega

/-- A sequential deletion preserves the ledger invariant. -/
theorem deleteFoodEntry_good {st : LedgerState} (hg : GoodState st) (k : Nat) :
    GoodState (deleteFoodEntry st k) := by
  obtain ⟨ht, hnn, hnd, hb, he⟩ := hg
  rcases hf : st.entries.find? (fun e => e.id == k) with _ | entry
  · rw [deleteFoodEntry_notFound hf]
    exact ⟨ht, hnn, hnd, hb, he⟩
  · have hmem : entry ∈ st.entries := List.mem_of_find?_eq_some hf
    have hek : entry.id = k := by
      have := List.find?_some hf
      simpa using this
    rcases hd : st.dailyLog with _ | l
    · rw [he hd] at hmem
      exact absurd hmem (List.not_mem_nil _)
    · have h1 := congrArg DailyLog.total_calories ht
      have h2 := congrArg DailyLog.total_protein ht
      have h3 := congrArg DailyLog.total_carbs ht
      have h4 := congrArg DailyLog.total_fat ht
      simp only [entrySums, loadedTotals, hd, Option.getD_some] at h1 h2 h3 h4
      have hnn' : ∀ e ∈ st.entries.filter (fun x => x.id != k),
          0 ≤ e.calories ∧ 0 ≤ e.protein ∧ 0 ≤ e.carbs ∧ 0 ≤ e.fat :=
        fun e hef => hnn e (List.mem_filter.mp hef).1
      have hfsum : ∀ (g : FoodEntry → ℚ), (∀ e ∈ st.entries, 0 ≤ g e) →
          0 ≤ ((st.entries.filter (fun x => x.id != k)).map g).sum := by
        intro g hge
        apply List.sum_nonneg
        intro a ha
        rcases List.mem_map.mp ha with ⟨e, hef, rfl⟩
        exact hge e (List.mem_filter.mp hef).1
      refine ⟨?_, ?_, ?_, ?_, ?_⟩
      · simp only [deleteFoodEntry, hf, hd, loadedTotals, Option.getD_some, entrySums,
          DailyLog.mk.injEq]
        refine ⟨?_, ?_, ?_, ?_⟩
        · rw [sum_filter_erase (fun e => e.calories) st.entries k entry hnd hmem hek, ← h1]
          rw [max_eq_right]
          rw [h1, ← sum_filter_erase (fun e => e.calories) st.entries k entry hnd hmem hek]
          exact hfsum _ (fun e hef => (hnn e hef).1)
        · rw [sum_filter_erase (fun e => e.protein) st.entries k entry hnd hmem hek, ← h2]
          rw [max_eq_right]
          rw [h2, ← sum_filter_erase (fun e => e.protein) st.entries k entry hnd hmem hek]
          exact hfsum _ (fun e hef => (hnn e hef).2.1)
        · rw [sum_filter_erase (fun e => e.carbs) st.entries k entry hnd hmem hek, ← h3]
          rw [max_eq_right]
          rw [h3, ← sum_filter_erase (fun e => e.carbs) st.entries k entry hnd hmem hek]
          exact hfsum _ (fun e hef => (hnn e hef).2.2.1)
        · rw [sum_filter_erase (fun e => e.fat) st.entries k entry hnd hmem hek, ← h4]
          rw [max_eq_right]
          rw [h4, ← sum_filter_erase (fun e => e.fat) st.entries k entry hnd hmem hek]
          exact hfsum _ (fun e hef => (hnn e hef).2.2.2)
      · simp only [deleteFoodEntry, hf, hd]
        exact hnn'
      · simp only [deleteFoodEntry, hf, hd]
        have hsub : List.Sublist ((st.entries.filter (fun x => x.id != k)).map (fun e => e.id))
            (st.entries.map (fun e => e.id)) :=
          List.Sublist.map _ (List.filter_sublist _)
        exact List.Nodup.sublist hsub hnd
      · simp only [deleteFoodEntry, hf, hd]
        intro e hef
        exact hb e (List.mem_filter.mp hef).1
      · simp only [deleteFoodEntry, hf, hd]
        intro hc
        exact Option.noConfusion hc

/-- The empty store satisfies the ledger invariant. -/
theorem initialState_good : GoodState initialState := by
  refine ⟨?_, ?_, ?_, ?_, ?_⟩ <;> simp [initialState, loadedTotals, entrySums, zeroLog]

/-- The invariant is preserved across a sequence of submissions with
non-negative per-serving values and quantities. -/
theorem runRecords_good :
    ∀ (rs : List RecordArgs) (st : LedgerState), GoodState st →
      (∀ r ∈ rs, 0 ≤ r.quantity) →
      (∀ r ∈ rs, 0 ≤ r.nutrition.calories ∧ 0 ≤ r.nutrition.protein ∧
        0 ≤ r.nutrition.carbs ∧ 0 ≤ r.nutrition.fat) →
      GoodState (runRecords st rs)
  | [], _, hg, _, _ => hg
  | r :: rs, _, hg, hq, hn =>
    runRecords_good rs _
      (handleSubmit_good hg (hq r (List.mem_cons_self _ _)) (hn r (List.mem_cons_self _ _)))
      (fun r' hr => hq r' (List.mem_cons_of_mem _ hr))
      (fun r' hr => hn r' (List.mem_cons_of_mem _ hr))

/-- The invariant is preserved across any sequence of deletions. -/
theorem runDeletes_good :
    ∀ (dels : List Nat) (st : LedgerState), GoodState st → GoodState (runDeletes st dels)
  | [], _, hg => hg
  | d :: ds, _, hg => runDeletes_good ds _ (deleteFoodEntry_good hg d)

/-- Running a sequence of deletions filters out exactly the rows whose
identity occurs in the sequence. -/
theorem runDeletes_entries :
    ∀ (dels : List Nat) (st : LedgerState),
      (runDeletes st dels).entries = st.entries.filter (fun e => !(dels.contains e.id))
  | [], st => by simp [runDeletes]
  | d :: ds, st => by
    have hstep : runDeletes st (d :: ds) = runDeletes (deleteFoodEntry st d) ds := rfl
    rw [hstep, runDeletes_entries ds _, deleteFoodEntry_entries]
    rw [List.filter_filter]
    have hfun : (fun e : FoodEntry => !(ds.contains e.id) && (e.id != d)) =
        (fun e : FoodEntry => !((d :: ds).contains e.id)) := by
      funext e
      by_cases h : e.id = d <;> simp [List.contains_cons, Bool.not_or, Bool.and_comm, h]
    rw [hfun]

/-- The row identities produced by a sequence of submissions: the fresh
identities counted up from the starting point, newest first, in front
of the pre-existing ones. -/
theorem runRecords_ids :
    ∀ (rs : List RecordArgs) (st : LedgerState),
      (runRecords st rs).entries.map (fun e => e.id) =
        (List.range' st.nextId rs.length).reverse ++ st.entries.map (fun e => e.id)
  | [], st => by simp [runRecords]
  | r :: rs, st => by
    have hstep : runRecords st (r :: rs) =
        runRecords (FoodForm.handleSubmit st r.foodName r.brand r.quantity r.nutrition) rs := rfl
    rw [hstep, runRecords_ids rs _, handleSubmit_eq]
    simp only [List.map_cons, List.length_cons, List.range'_succ, List.reverse_cons,
      List.append_assoc, List.singleton_append]

/-- Deleting a sequence of distinct identities, each present in the
store, removes exactly one row per identity. -/
theorem runDeletes_length :
    ∀ (dels : List Nat) (st : LedgerState),
      (st.entries.map (fun e => e.id)).Nodup → dels.Nodup →
      (∀ d ∈ dels, d ∈ st.entries.map (fun e => e.id)) →
      (runDeletes st dels).entries.length = st.entries.length - dels.length
  | [], st, _, _, _ => by simp [runDeletes]
  | d :: ds, st, hnd, hdels, hall => by
    have hd : d ∈ st.entries.map (fun e => e.id) := hall d (List.mem_cons_self _ _)
    rcases List.mem_map.mp hd with ⟨entry, hmem, hide⟩
    have hfind : (st.entries.find? (fun e => e.id == d)).isSome := by
      rw [List.find?_isSome]
      exact ⟨entry, hmem, by simp [hide]⟩
    have hstep : runDeletes st (d :: ds) = runDeletes (deleteFoodEntry st d) ds := rfl
    have hents : (deleteFoodEntry st d).entries = st.entries.filter (fun e => e.id != d) :=
      deleteFoodEntry_entries st d
    have hnd' : ((deleteFoodEntry st d).entries.map (fun e => e.id)).Nodup := by
      rw [hents]
      have hsub : List.Sublist ((st.entries.filter (fun e => e.id != d)).map (fun e => e.id))
          (st.entries.map (fun e => e.id)) :=
        List.Sublist.map _ (List.filter_sublist _)
      exact List.Nodup.sublist hsub hnd
    have hall' : ∀ d' ∈ ds, d' ∈ (deleteFoodEntry st d).entries.map (fun e => e.id) := by
      intro d' hd'
      have hmem' : d' ∈ st.entries.map (fun e => e.id) :=
        hall d' (List.mem_cons_of_mem _ hd')
      rcases List.mem_map.mp hmem' with ⟨e', hme', hide'⟩
      have hne : d' ≠ d := by
        intro hc
        exact (List.nodup_cons.mp hdels).1 (hc ▸ hd')
      rw [hents]
      refine List.mem_map.mpr ⟨e', List.mem_filter.mpr ⟨hme', ?_⟩, hide'⟩
      simp [hide', hne]
    have hlen : (deleteFoodEntry st d).entries.length = st.entries.length - 1 := by
      rw [hents]
      exact length_filter_erase st.entries d entry hnd hmem hide
    rw [hstep, runDeletes_length ds _ hnd' (List.nodup_cons.mp hdels).2 hall', hlen]
    have hpos : 0 < st.entries.length := List.length_pos.mpr (List.ne_nil_of_mem hmem)
    simp only [List.length_cons]
    omega

/-- C1: starting from an empty day, after any sequence of sequential
submissions with non-negative per-serving values and non-negative
quantities followed by any sequence of deletions of recorded row
identities, each of the four loaded aggregate totals equals the sum of
the corresponding stored scaled values over the remaining live entries;
the remaining entries are exactly the recorded ones whose identity was
not deleted, and when the deleted identities are distinct identities of
recorded rows, exactly N - |S| entries remain. -/
theorem ledger_conservation (rs : List RecordArgs) (dels : List Nat)
    (hq : ∀ r ∈ rs, 0 ≤ r.quantity)
    (hn : ∀ r ∈ rs, 0 ≤ r.nutrition.calories ∧ 0 ≤ r.nutrition.protein ∧
      0 ≤ r.nutrition.carbs ∧ 0 ≤ r.nutrition.fat) :
    loadedTotals (runDeletes (runRecords initialState rs) dels) =
      entrySums (runDeletes (runRecords initialState rs) dels).entries ∧
    (runDeletes (runRecords initialState rs) dels).entries =
      (runRecords initialState rs).entries.filter (fun e => !(dels.contains e.id)) ∧
    (dels.Nodup → (∀ d ∈ dels, d < rs.length) →
      (runDeletes (runRecords initialState rs) dels).entries.length =
        rs.length - dels.length) := by
  refine ⟨?_, ?_, ?_⟩
  · exact (runDeletes_good dels _ (runRecords_good rs initialState initialState_good hq hn)).1
  · exact runDeletes_entries dels _
  · intro hnd hlt
    have hgood := runRecords_good rs initialState initialState_good hq hn
    have hids := runRecords_ids rs initialState
    have h0 : initialState.entries.map (fun e => e.id) = [] := rfl
    have h1 : initialState.nextId = 0 := rfl
    rw [h0, h1, List.append_nil] at hids
    have hall : ∀ d ∈ dels, d ∈ (runRecords initialState rs).entries.map (fun e => e.id) := by
      intro d hd
      rw [hids, List.mem_reverse, List.mem_range'_1]
      exact ⟨Nat.zero_le _, by simpa using hlt d hd⟩
    have hlen := runDeletes_length dels _ hgood.2.2.1 hnd hall
    have hlenrec : (runRecords initialState rs).entries.length = rs.length := by
      have hc := congrArg List.length hids
      simpa using hc
    rw [hlen, hlenrec]

/-- C1 witness: two submissions then one deletion; the loaded totals
match the entry sums and one entry remains. -/
theorem ledger_conservation_witness :
    loadedTotals (runDeletes (runRecords initialState
        [⟨"apple", "", 2, ⟨100, 10, 5, 2⟩⟩, ⟨"milk", "brandx", 1, ⟨50, 3, 4, 1⟩⟩]) [0]) =
      entrySums (runDeletes (runRecords initialState
        [⟨"apple", "", 2, ⟨100, 10, 5, 2⟩⟩, ⟨"milk", "brandx", 1, ⟨50, 3, 4, 1⟩⟩]) [0]).entries ∧
    (runDeletes (runRecords initialState
        [⟨"apple", "", 2, ⟨100, 10, 5, 2⟩⟩, ⟨"milk", "brandx", 1, ⟨50, 3, 4, 1⟩⟩])
        [0]).entries.length = 1 := by
  have h := ledger_conservation
    [⟨"apple", "", 2, ⟨100, 10, 5, 2⟩⟩, ⟨"milk", "brandx", 1, ⟨50, 3, 4, 1⟩⟩] [0]
    (by with_unfolding_all decide) (by with_unfolding_all decide)
  exact ⟨h.1, by simpa using h.2.2 (by decide) (by decide)⟩
